import Mathlib

/-!
# Verification of the rolling-ball tutorial (Tutorial1.ipynb)

A shallow embedding in Lean 4 of the numerical routines of the notebook:

* the forward Euler simulator `restingPosition(s, v, alpha)` — a while loop
  advancing `s := s + v*dt; v := v + alpha*g*dt` with `dt = 0.001`, `g = 9.8`,
  running while `v < 0`;
* the crude two-point parameter estimate;
* the kinematic least-squares fit (design matrix with rows
  `[1, t_n, ½·g·t_n²]`, `t_n = n·period`), solved via the normal equations;
* the closed-form resting position `s₀ − u²/(2·α·g)`.

All arithmetic is modelled over `ℚ`: every constant of the source
(`9.8`, `0.001`, `1/50`, the eight data values) is an exact decimal, so the
rational model reproduces the Python computation exactly.
-/

namespace RollingBall

/-- Gravitational acceleration, `g = 9.8` in the source. -/
def g : ℚ := 49/5

/-- Integration time step of the forward simulator, `dt = 0.001`. -/
def dt : ℚ := 1/1000

/-- Camera frame period, `1.0/50.0` in the source. -/
def frame_period : ℚ := 1/50

/-- The eight position measurements hard-coded in the notebook (`data`). -/
def ballData : List ℚ := [0.6180, 0.6111, 0.6042, 0.5973, 0.5905, 0.5837, 0.5770, 0.5703]

/-! ## Forward Euler simulator

The source:
```
def restingPosition(s, v, alpha):
    g = 9.8
    a = alpha*g
    dt = 0.001
    while(v < 0):
      s = s + v*dt;
      v = v + a*dt;
    return s;
```
The loop body is split into the two assignments `stepS` and `stepV`; the
while loop itself is embedded fuel-indexed (`restingLoop`), and
`RestingPosition s v alpha r` states that the loop, run from `(s, v)`,
terminates with result `r` (for some finite fuel). -/

/-- The position update of one loop iteration: `s = s + v*dt`. -/
def stepS (s v : ℚ) : ℚ := s + v * dt

/-- The velocity update of one loop iteration: `v = v + a*dt` with `a = alpha*g`. -/
def stepV (alpha v : ℚ) : ℚ := v + alpha * g * dt

/-- Fuel-indexed run of the `while(v < 0)` loop: `none` means the fuel ran out
with the guard still true; `some s` means the loop exited normally returning `s`. -/
def restingLoop (alpha : ℚ) : ℕ → ℚ → ℚ → Option ℚ
  | 0, s, v => if v < 0 then none else some s
  | fuel+1, s, v => if v < 0 then restingLoop alpha fuel (stepS s v) (stepV alpha v) else some s

/-- `restingPosition(s, v, alpha)` terminates and returns `r`. -/
def RestingPosition (s v alpha r : ℚ) : Prop :=
  ∃ fuel, restingLoop alpha fuel s v = some r

/-- Velocity after `n` loop iterations: `v + n·(α·g·dt)`. -/
def vAt (v alpha : ℚ) (n : ℕ) : ℚ := v + n * (alpha * g * dt)

/-- Position after `n` loop iterations (each iteration adds the pre-update
velocity times `dt`). -/
def sAt (s v alpha : ℚ) : ℕ → ℚ
  | 0 => s
  | n+1 => sAt s v alpha n + vAt v alpha n * dt

lemma vAt_zero (v alpha : ℚ) : vAt v alpha 0 = v := by simp [vAt]

lemma vAt_step (v alpha : ℚ) (n : ℕ) :
    vAt (stepV alpha v) alpha n = vAt v alpha (n+1) := by
  simp only [vAt, stepV]
  push_cast
  ring

lemma sAt_step (s v alpha : ℚ) (n : ℕ) :
    sAt (stepS s v) (stepV alpha v) alpha n = sAt s v alpha (n+1) := by
  induction n with
  | zero => simp [sAt, stepS, vAt]
  | succ n ih => simp only [sAt, ih, vAt_step]

/-- Closed form for the position after `n` iterations. -/
lemma sAt_closed (s v alpha : ℚ) (n : ℕ) :
    sAt s v alpha n = s + (n : ℚ) * v * dt + alpha * g * dt * dt * ((n : ℚ) * ((n : ℚ) - 1)) / 2 := by
  induction n with
  | zero => simp [sAt]
  | succ n ih =>
    rw [sAt, ih, vAt]
    push_cast
    ring

/-- If the velocity first becomes non-negative at iteration `n`, then any run
with fuel at least `n` exits returning `sAt s v alpha n`. -/
lemma restingLoop_eq_of_first_nonneg (alpha : ℚ) :
    ∀ (n fuel : ℕ) (s v : ℚ), (∀ k < n, vAt v alpha k < 0) → 0 ≤ vAt v alpha n →
      n ≤ fuel → restingLoop alpha fuel s v = some (sAt s v alpha n) := by
  intro n
  induction n with
  | zero =>
    intro fuel s v _ h0 _
    rw [vAt_zero] at h0
    cases fuel with
    | zero => simp [restingLoop, not_lt.mpr h0, sAt]
    | succ f => simp [restingLoop, not_lt.mpr h0, sAt]
  | succ n ih =>
    intro fuel s v hneg h0 hle
    have hv : v < 0 := by simpa [vAt_zero] using hneg 0 (Nat.succ_pos n)
    cases fuel with
    | zero => omega
    | succ f =>
      rw [restingLoop, if_pos hv]
      have hneg' : ∀ k < n, vAt (stepV alpha v) alpha k < 0 := by
        intro k hk
        rw [vAt_step]
        exact hneg (k+1) (by omega)
      have h0' : 0 ≤ vAt (stepV alpha v) alpha n := by
        rw [vAt_step]; exact h0
      rw [ih f (stepS s v) (stepV alpha v) hneg' h0' (by omega), sAt_step]

/-- Conversely, a terminating run determines such a first index `n`. -/
lemma exists_first_nonneg_of_restingLoop (alpha : ℚ) :
    ∀ (fuel : ℕ) (s v r : ℚ), restingLoop alpha fuel s v = some r →
      ∃ n, (∀ k < n, vAt v alpha k < 0) ∧ 0 ≤ vAt v alpha n ∧ r = sAt s v alpha n := by
  intro fuel
  induction fuel with
  | zero =>
    intro s v r h
    rw [restingLoop] at h
    by_cases hv : v < 0
    · simp [hv] at h
    · refine ⟨0, by omega, by simpa [vAt_zero] using not_lt.mp hv, ?_⟩
      simp [hv] at h
      simp [sAt, h]
  | succ f ih =>
    intro s v r h
    rw [restingLoop] at h
    by_cases hv : v < 0
    · rw [if_pos hv] at h
      obtain ⟨n, hneg, h0, hr⟩ := ih (stepS s v) (stepV alpha v) r h
      refine ⟨n+1, ?_, ?_, ?_⟩
      · intro k hk
        cases k with
        | zero => simpa [vAt_zero] using hv
        | succ k => rw [← vAt_step]; exact hneg k (by omega)
      · rw [← vAt_step]; exact h0
      · rw [hr, ← sAt_step]
    · refine ⟨0, by omega, by simpa [vAt_zero] using not_lt.mp hv, ?_⟩
      rw [if_neg hv] at h
      simp at h
      simp [sAt, h]

/-- With positive friction the velocity eventually becomes non-negative. -/
lemma exists_vAt_nonneg (v alpha : ℚ) (ha : 0 < alpha) : ∃ n, 0 ≤ vAt v alpha n := by
  have hstep : 0 < alpha * g * dt := by
    have hg : (0:ℚ) < g := by norm_num [g]
    have hdt : (0:ℚ) < dt := by norm_num [dt]
    positivity
  obtain ⟨n, hn⟩ := exists_nat_ge (-v / (alpha * g * dt))
  refine ⟨n, ?_⟩
  rw [vAt, ← sub_nonneg]
  have := (div_le_iff₀ hstep).mp hn
  linarith

/-- Errors a faithful reimplementation of the simulator can raise
(the source itself has no guard and would loop forever on `alpha ≤ 0`). -/
inductive SimError
  | invalidParameter
  deriving DecidableEq, Repr

/-- Modelled from the spec: the source's `restingPosition` has no guard for a
non-positive friction coefficient, but the spec requires a reimplementation to
fail with an `InvalidParameter` error instead of looping forever when
`alpha ≤ 0` and `v < 0`. On valid inputs it returns the position at the first
iteration where the velocity is non-negative, exactly as the source loop does. -/
def restingPositionChecked (s v alpha : ℚ) : Except SimError ℚ :=
  if h : 0 < alpha then .ok (sAt s v alpha (Nat.find (exists_vAt_nonneg v alpha h)))
  else if v < 0 then .error .invalidParameter
  else .ok s

/-- With `alpha ≤ 0` and `v < 0` the velocity never increases past its start. -/
lemma vAt_neg_of_nonpos (v alpha : ℚ) (ha : alpha ≤ 0) (hv : v < 0) (n : ℕ) :
    vAt v alpha n < 0 := by
  have hg : (0:ℚ) < g := by norm_num [g]
  have hdt : (0:ℚ) < dt := by norm_num [dt]
  have hstep : alpha * g * dt ≤ 0 := by
    have : alpha * g ≤ 0 := mul_nonpos_of_nonpos_of_nonneg ha hg.le
    exact mul_nonpos_of_nonpos_of_nonneg this hdt.le
  have hn : (n : ℚ) * (alpha * g * dt) ≤ 0 :=
    mul_nonpos_of_nonneg_of_nonpos (Nat.cast_nonneg n) hstep
  rw [vAt]
  linarith

/-- With `alpha ≤ 0` and `v < 0`, no amount of fuel makes the loop finish. -/
lemma restingLoop_none_of_nonpos (alpha : ℚ) (ha : alpha ≤ 0) :
    ∀ (fuel : ℕ) (s v : ℚ), v < 0 → restingLoop alpha fuel s v = none := by
  intro fuel s v hv
  cases h : restingLoop alpha fuel s v with
  | none => rfl
  | some r =>
    obtain ⟨n, _, h0, _⟩ := exists_first_nonneg_of_restingLoop alpha fuel s v r h
    exact absurd h0 (not_le.mpr (vAt_neg_of_nonpos v alpha ha hv n))

/-- The simulated resting position is `sAt` at the first non-negative-velocity
index, and with positive friction the loop indeed reaches it. -/
lemma restingPosition_pos_alpha (s v alpha : ℚ) (ha : 0 < alpha) :
    RestingPosition s v alpha (sAt s v alpha (Nat.find (exists_vAt_nonneg v alpha ha))) := by
  refine ⟨Nat.find (exists_vAt_nonneg v alpha ha), ?_⟩
  exact restingLoop_eq_of_first_nonneg alpha _ _ s v
    (fun k hk => not_le.mp (Nat.find_min (exists_vAt_nonneg v alpha ha) hk))
    (Nat.find_spec (exists_vAt_nonneg v alpha ha)) le_rfl

/-! ## Crude two-point estimate

The source cell:
```
s = data[0]
v0 = (data[1] - data[0])/frame_period
v1 = (data[7] - data[6])/frame_period
alpha = (v1-v0)/(6*frame_period*g)
```
-/

/-- Crude initial position: the first measurement. -/
def crudeS : ℚ := ballData.getD 0 0

/-- Crude initial velocity: first-difference of the first two frames. -/
def crudeV0 : ℚ := (ballData.getD 1 0 - ballData.getD 0 0) / frame_period

/-- Velocity between the last two frames. -/
def crudeV1 : ℚ := (ballData.getD 7 0 - ballData.getD 6 0) / frame_period

/-- Crude friction estimate from the velocity change over six frame periods. -/
def crudeAlpha : ℚ := (crudeV1 - crudeV0) / (6 * frame_period * g)

/-! ## Kinematic least-squares fit

The source cell:
```
t = np.array([0, 1.0/50, 2.0/50, ..., 7.0/50])
X = np.vstack([np.ones(len(t)), t, 0.5*g*t*t]).T
Y = np.array(data).T
B = np.linalg.lstsq(X, Y)[0]
```
The design matrix has row `n = [1, t_n, ½·g·t_n²]` with `t_n = n · period`.
The least-squares problem is solved here through the normal equations
`(XᵀX)·B = Xᵀ·Y` by Cramer's rule — exact over `ℚ`, and (proved below) the
unique minimizer whenever `XᵀX` is non-singular, which holds for every
`N ≥ 3` with non-zero period and gravity. -/

/-- Sum of `f 0 + f 1 + ... + f (N-1)`, executable by structural recursion. -/
def sumIdx (f : ℕ → ℚ) : ℕ → ℚ
  | 0 => 0
  | n+1 => sumIdx f n + f n

/-- Determinant of an explicit 3×3 matrix given row by row. -/
def det3 (a00 a01 a02 a10 a11 a12 a20 a21 a22 : ℚ) : ℚ :=
  a00 * (a11 * a22 - a12 * a21) - a01 * (a10 * a22 - a12 * a20)
    + a02 * (a10 * a21 - a11 * a20)

/-- Column `i` of the design matrix evaluated at sample index `n`:
`[1, t_n, ½·g·t_n²]` with `t_n = n · period`. -/
def designCol (gc period : ℚ) : Fin 3 → ℕ → ℚ
  | 0, _ => 1
  | 1, n => (n : ℚ) * period
  | 2, n => gc / 2 * ((n : ℚ) * period) ^ 2

/-- Errors of the kinematic fit. `insufficientData` is modelled from the spec:
the source calls `np.linalg.lstsq` unguarded, but the spec requires a
reimplementation to reject fewer than 3 observations before solving. -/
inductive FitError
  | insufficientData
  deriving DecidableEq, Repr

/-- Entry `(i, j)` of the normal-equation matrix `XᵀX`: the dot product of
design-matrix columns `i` and `j` over the first `N` sample indices. -/
def gramEntry (gc period : ℚ) (N : ℕ) (i j : Fin 3) : ℚ :=
  sumIdx (fun n => designCol gc period i n * designCol gc period j n) N

/-- Entry `i` of the normal-equation right-hand side `XᵀY`: the dot product of
design-matrix column `i` with the observation list `ds`. -/
def momEntry (gc period : ℚ) (ds : List ℚ) (i : Fin 3) : ℚ :=
  sumIdx (fun n => designCol gc period i n * ds.getD n 0) ds.length

/-- The kinematic least-squares fit: returns the triple `(s₀, u, α)` solving
the normal equations `(XᵀX)·B = XᵀY` of the design matrix against the
observations `ds` (Cramer's rule over exact rationals), or
`insufficientData` when fewer than 3 observations are supplied (modelled from
the spec — the source calls `np.linalg.lstsq` with no guard). -/
def lstsqFit (gc period : ℚ) (ds : List ℚ) : Except FitError (ℚ × ℚ × ℚ) :=
  if ds.length < 3 then .error .insufficientData
  else
    let a := gramEntry gc period ds.length
    let b := momEntry gc period ds
    let det := det3 (a 0 0) (a 0 1) (a 0 2) (a 0 1) (a 1 1) (a 1 2) (a 0 2) (a 1 2) (a 2 2)
    .ok (det3 (b 0) (a 0 1) (a 0 2) (b 1) (a 1 1) (a 1 2) (b 2) (a 1 2) (a 2 2) / det,
         det3 (a 0 0) (b 0) (a 0 2) (a 0 1) (b 1) (a 1 2) (a 0 2) (b 2) (a 2 2) / det,
         det3 (a 0 0) (a 0 1) (b 0) (a 0 1) (a 1 1) (b 1) (a 0 2) (a 1 2) (b 2) / det)

/-- The closed-form resting position `s₀ − u²/(2·α·g)` from the notebook's
`sr = s0 - u*u/(2*alpha*g)` cell. -/
def restingClosedForm (gc s0 u alpha : ℚ) : ℚ := s0 - u * u / (2 * alpha * gc)

/-- Noiseless observations generated exactly from the kinematic model
`s(t) = s₀ + u·t + ½·α·g·t²` at times `t_n = n · period`, `n = 0, ..., N-1`. -/
def modelData (gc period s0 u alpha : ℚ) (N : ℕ) : List ℚ :=
  (List.range N).map fun n : ℕ =>
    s0 + u * ((n : ℚ) * period) + 1/2 * alpha * gc * ((n : ℚ) * period) ^ 2

/-! ### The normal-equation matrix is non-singular for `N ≥ 3` -/

lemma sumIdx_eq_sum (f : ℕ → ℚ) (N : ℕ) : sumIdx f N = ∑ n ∈ Finset.range N, f n := by
  induction N with
  | zero => simp [sumIdx]
  | succ n ih => rw [sumIdx, Finset.sum_range_succ, ih]

@[simp] lemma designCol_zero (gc p : ℚ) (n : ℕ) : designCol gc p 0 n = 1 := rfl

@[simp] lemma designCol_one (gc p : ℚ) (n : ℕ) : designCol gc p 1 n = (n : ℚ) * p := rfl

@[simp] lemma designCol_two (gc p : ℚ) (n : ℕ) :
    designCol gc p 2 n = gc / 2 * ((n : ℚ) * p) ^ 2 := rfl

/-- The normal-equation matrix `XᵀX` as a `Matrix`, for the determinant
argument. -/
def gram (gc p : ℚ) (N : ℕ) : Matrix (Fin 3) (Fin 3) ℚ :=
  Matrix.of fun i j => ∑ n ∈ Finset.range N, designCol gc p i n * designCol gc p j n

lemma gramEntry_eq (gc p : ℚ) (N : ℕ) (i j : Fin 3) :
    gramEntry gc p N i j = gram gc p N i j := by
  rw [gramEntry, sumIdx_eq_sum]; rfl

lemma gram_symm (gc p : ℚ) (N : ℕ) (i j : Fin 3) :
    gram gc p N i j = gram gc p N j i := by
  unfold gram
  simp only [Matrix.of_apply]
  exact Finset.sum_congr rfl fun n _ => mul_comm _ _

/-- The quadratic form of the normal-equation matrix is the sum of squared
design residual directions. -/
lemma gram_quadForm (gc p : ℚ) (N : ℕ) (v : Fin 3 → ℚ) :
    Matrix.dotProduct v ((gram gc p N).mulVec v)
      = ∑ n ∈ Finset.range N,
          (v 0 + v 1 * ((n : ℚ) * p) + v 2 * (gc / 2 * ((n : ℚ) * p) ^ 2)) ^ 2 := by
  simp only [Matrix.dotProduct, Matrix.mulVec, Fin.sum_univ_three, gram, Matrix.of_apply,
    designCol_zero, designCol_one, designCol_two]
  simp only [Finset.mul_sum, Finset.sum_mul, ← Finset.sum_add_distrib]
  exact Finset.sum_congr rfl fun n _ => by ring

/-- For `N ≥ 3`, non-zero period and non-zero gravity, the normal-equation
matrix is non-singular: the three design columns are linearly independent. -/
lemma gram_det_ne_zero (gc p : ℚ) (N : ℕ) (hg : gc ≠ 0) (hp : p ≠ 0) (hN : 3 ≤ N) :
    (gram gc p N).det ≠ 0 := by
  intro hdet
  obtain ⟨v, hv, hm⟩ := Matrix.exists_mulVec_eq_zero_iff.mpr hdet
  have hquad : ∑ n ∈ Finset.range N,
      (v 0 + v 1 * ((n : ℚ) * p) + v 2 * (gc / 2 * ((n : ℚ) * p) ^ 2)) ^ 2 = 0 := by
    rw [← gram_quadForm, hm, Matrix.dotProduct_zero]
  have hzero : ∀ n ∈ Finset.range N,
      (v 0 + v 1 * ((n : ℚ) * p) + v 2 * (gc / 2 * ((n : ℚ) * p) ^ 2)) ^ 2 = 0 :=
    (Finset.sum_eq_zero_iff_of_nonneg fun n _ => sq_nonneg _).mp hquad
  have hq : ∀ n ∈ Finset.range N,
      v 0 + v 1 * ((n : ℚ) * p) + v 2 * (gc / 2 * ((n : ℚ) * p) ^ 2) = 0 :=
    fun n hn => pow_eq_zero_iff (by omega) |>.mp (hzero n hn)
  have h0 := hq 0 (Finset.mem_range.mpr (by omega))
  have h1 := hq 1 (Finset.mem_range.mpr (by omega))
  have h2 := hq 2 (Finset.mem_range.mpr (by omega))
  push_cast at h0 h1 h2
  have hv0 : v 0 = 0 := by linarith [h0]
  have hv2 : v 2 = 0 := by
    have hk : gc * p ^ 2 * v 2 = 0 := by linear_combination h2 - 2 * h1 + hv0
    have := mul_ne_zero hg (pow_ne_zero 2 hp)
    exact (mul_eq_zero.mp hk).resolve_left this
  have hv1 : v 1 = 0 := by
    have hk : p * v 1 = 0 := by linear_combination h1 - hv0 - (gc * p ^ 2 / 2) * hv2
    exact (mul_eq_zero.mp hk).resolve_left hp
  exact hv (funext fun i => by fin_cases i <;> assumption)

/-! ### Cramer's rule recovers the exact coefficients on model data -/

lemma det3_cramer_col0 (a00 a01 a02 a11 a12 a22 x y z : ℚ) :
    det3 (a00*x + a01*y + a02*z) a01 a02 (a01*x + a11*y + a12*z) a11 a12
      (a02*x + a12*y + a22*z) a12 a22
      = x * det3 a00 a01 a02 a01 a11 a12 a02 a12 a22 := by
  unfold det3; ring

lemma det3_cramer_col1 (a00 a01 a02 a11 a12 a22 x y z : ℚ) :
    det3 a00 (a00*x + a01*y + a02*z) a02 a01 (a01*x + a11*y + a12*z) a12
      a02 (a02*x + a12*y + a22*z) a22
      = y * det3 a00 a01 a02 a01 a11 a12 a02 a12 a22 := by
  unfold det3; ring

lemma det3_cramer_col2 (a00 a01 a02 a11 a12 a22 x y z : ℚ) :
    det3 a00 a01 (a00*x + a01*y + a02*z) a01 a11 (a01*x + a11*y + a12*z)
      a02 a12 (a02*x + a12*y + a22*z)
      = z * det3 a00 a01 a02 a01 a11 a12 a02 a12 a22 := by
  unfold det3; ring

lemma modelData_length (gc p s0 u alpha : ℚ) (N : ℕ) :
    (modelData gc p s0 u alpha N).length = N := by
  simp [modelData]

lemma modelData_getD (gc p s0 u alpha : ℚ) (N n : ℕ) (hn : n < N) :
    (modelData gc p s0 u alpha N).getD n 0
      = s0 + u * ((n : ℚ) * p) + 1/2 * alpha * gc * ((n : ℚ) * p) ^ 2 := by
  rw [modelData, List.getD_eq_getElem?_getD, List.getElem?_map, List.getElem?_range hn]
  rfl

/-- On model data the right-hand side of the normal equations is the matrix
applied to the true parameter triple. -/
lemma momEntry_modelData (gc p s0 u alpha : ℚ) (N : ℕ) (i : Fin 3) :
    momEntry gc p (modelData gc p s0 u alpha N) i
      = gramEntry gc p N i 0 * s0 + gramEntry gc p N i 1 * u
          + gramEntry gc p N i 2 * alpha := by
  rw [momEntry, gramEntry, gramEntry, gramEntry, modelData_length,
    sumIdx_eq_sum, sumIdx_eq_sum, sumIdx_eq_sum, sumIdx_eq_sum,
    Finset.sum_mul, Finset.sum_mul, Finset.sum_mul, ← Finset.sum_add_distrib,
    ← Finset.sum_add_distrib]
  refine Finset.sum_congr rfl fun n hn => ?_
  rw [modelData_getD gc p s0 u alpha N n (Finset.mem_range.mp hn)]
  fin_cases i <;> simp <;> ring

lemma gramEntry_symm (gc p : ℚ) (N : ℕ) (i j : Fin 3) :
    gramEntry gc p N i j = gramEntry gc p N j i := by
  rw [gramEntry_eq, gramEntry_eq, gram_symm]

/-- The determinant computed inside `lstsqFit` is the determinant of the
normal-equation matrix. -/
lemma det3_gramEntry_eq_det (gc p : ℚ) (N : ℕ) :
    det3 (gramEntry gc p N 0 0) (gramEntry gc p N 0 1) (gramEntry gc p N 0 2)
      (gramEntry gc p N 0 1) (gramEntry gc p N 1 1) (gramEntry gc p N 1 2)
      (gramEntry gc p N 0 2) (gramEntry gc p N 1 2) (gramEntry gc p N 2 2)
      = (gram gc p N).det := by
  rw [Matrix.det_fin_three]
  rw [show (gram gc p N) 1 0 = gram gc p N 0 1 from gram_symm gc p N 1 0,
    show (gram gc p N) 2 0 = gram gc p N 0 2 from gram_symm gc p N 2 0,
    show (gram gc p N) 2 1 = gram gc p N 1 2 from gram_symm gc p N 2 1]
  simp only [gramEntry_eq]
  unfold det3
  ring

/-- Fitting noiseless model data recovers the generating parameters exactly. -/
lemma lstsqFit_modelData (gc p s0 u alpha : ℚ) (N : ℕ)
    (hN : 3 ≤ N) (hg : gc ≠ 0) (hp : p ≠ 0) :
    lstsqFit gc p (modelData gc p s0 u alpha N) = .ok (s0, u, alpha) := by
  have hlen := modelData_length gc p s0 u alpha N
  have hD : det3 (gramEntry gc p N 0 0) (gramEntry gc p N 0 1) (gramEntry gc p N 0 2)
      (gramEntry gc p N 0 1) (gramEntry gc p N 1 1) (gramEntry gc p N 1 2)
      (gramEntry gc p N 0 2) (gramEntry gc p N 1 2) (gramEntry gc p N 2 2) ≠ 0 := by
    rw [det3_gramEntry_eq_det]
    exact gram_det_ne_zero gc p N hg hp hN
  simp only [lstsqFit, hlen]
  rw [if_neg (by omega : ¬ N < 3)]
  rw [momEntry_modelData gc p s0 u alpha N 0, momEntry_modelData gc p s0 u alpha N 1,
    momEntry_modelData gc p s0 u alpha N 2]
  rw [gramEntry_symm gc p N 1 0, gramEntry_symm gc p N 2 0, gramEntry_symm gc p N 2 1]
  rw [det3_cramer_col0, det3_cramer_col1, det3_cramer_col2]
  rw [mul_div_cancel_right₀ s0 hD, mul_div_cancel_right₀ u hD,
    mul_div_cancel_right₀ alpha hD]

/-! ### Quantitative analysis of the Euler simulation -/

/-- A terminating run from a negative initial velocity stops at the first
step index `n` whose velocity is non-negative; extracted in closed form. -/
lemma resting_spec (s v alpha r : ℚ) (hv : v < 0) (hr : RestingPosition s v alpha r) :
    ∃ n : ℕ, 1 ≤ n ∧ 0 ≤ v + (n : ℚ) * (alpha * g * dt)
      ∧ v + ((n : ℚ) - 1) * (alpha * g * dt) < 0
      ∧ r = s + (n : ℚ) * v * dt + alpha * g * dt * dt * ((n : ℚ) * ((n : ℚ) - 1)) / 2 := by
  obtain ⟨fuel, h⟩ := hr
  obtain ⟨n, hneg, h0, hr'⟩ := exists_first_nonneg_of_restingLoop alpha fuel s v r h
  have hn1 : 1 ≤ n := by
    by_contra hn
    have : n = 0 := by omega
    rw [this, vAt_zero] at h0
    exact absurd h0 (not_le.mpr hv)
  refine ⟨n, hn1, ?_, ?_, ?_⟩
  · rw [vAt] at h0; exact h0
  · have := hneg (n-1) (by omega)
    rw [vAt, Nat.cast_sub hn1] at this
    push_cast at this
    exact this
  · rw [hr', sAt_closed]

/-- The Euler resting position differs from the closed form by at most
`dt · |v|`. -/
lemma resting_error_bound (s v alpha r : ℚ) (hv : v < 0) (ha : 0 < alpha)
    (hr : RestingPosition s v alpha r) :
    |r - restingClosedForm g s v alpha| ≤ dt * |v| := by
  obtain ⟨n, hn1, hup, hlow, hrn⟩ := resting_spec s v alpha r hv hr
  have hg : (0:ℚ) < g := by norm_num [g]
  have hdt : (0:ℚ) < dt := by norm_num [dt]
  have ha' : (0:ℚ) < alpha * g := mul_pos ha hg
  have hn1' : (1:ℚ) ≤ (n : ℚ) := by exact_mod_cast hn1
  have h2a : (0:ℚ) < 2 * (alpha * g) := by linarith
  rw [hrn, restingClosedForm, abs_le, abs_of_neg hv]
  have hE : s + (n : ℚ) * v * dt + alpha * g * dt * dt * ((n : ℚ) * ((n : ℚ) - 1)) / 2
      - (s - v * v / (2 * alpha * g))
      = (2 * (alpha * g) * (n : ℚ) * v * dt
          + (alpha * g) * (alpha * g) * dt * dt * ((n : ℚ) * ((n : ℚ) - 1)) + v * v)
        / (2 * (alpha * g)) := by
    field_simp
    ring
  rw [hE]
  constructor
  · rw [le_div_iff₀ h2a]
    nlinarith [sq_nonneg (v + ((n : ℚ) - 1) * (alpha * g * dt)),
      mul_nonneg (mul_nonneg (mul_pos ha' hdt).le (mul_pos ha' hdt).le) (by linarith : (0:ℚ) ≤ (n : ℚ) - 1)]
  · rw [div_le_iff₀ h2a]
    nlinarith [mul_nonneg (by linarith : (0:ℚ) ≤ -v) hup,
      mul_nonpos_of_nonneg_of_nonpos
        (by positivity : (0:ℚ) ≤ alpha * g * (n : ℚ) * dt) hlow.le,
      mul_pos (mul_pos hdt (by linarith : (0:ℚ) < -v)) h2a]

/-- A terminating run from a negative initial velocity strictly decreases the
position. -/
lemma resting_lt_start (s v alpha r : ℚ) (hv : v < 0)
    (hr : RestingPosition s v alpha r) : r < s := by
  obtain ⟨n, hn1, _, hlow, hrn⟩ := resting_spec s v alpha r hv hr
  have hdt : (0:ℚ) < dt := by norm_num [dt]
  have hn1' : (1:ℚ) ≤ (n : ℚ) := by exact_mod_cast hn1
  have hhalf : v + alpha * g * dt * ((n : ℚ) - 1) / 2 < 0 := by
    rcases le_or_lt 0 (alpha * g * dt) with h | h
    · nlinarith [mul_nonneg h (by linarith : (0:ℚ) ≤ (n : ℚ) - 1)]
    · nlinarith [mul_nonpos_of_nonpos_of_nonneg h.le (by linarith : (0:ℚ) ≤ (n : ℚ) - 1)]
  rw [hrn]
  nlinarith [mul_neg_of_pos_of_neg (mul_pos (by linarith : (0:ℚ) < (n : ℚ)) hdt) hhalf]

/-- Shared concrete run of the simulator: from `s = 1`, `v = -1`,
`alpha = 5/49` (so `alpha·g = 1`), the loop exits after 1000 steps at
position `999/2000`. -/
lemma restingPos_unit_example : RestingPosition 1 (-1) (5/49) (999/2000) := by
  have h : restingLoop (5/49) 1000 1 (-1) = some (sAt 1 (-1) (5/49) 1000) := by
    apply restingLoop_eq_of_first_nonneg (5/49) 1000 1000 1 (-1) ?_ ?_ le_rfl
    · intro k hk
      have hk' : (k : ℚ) ≤ 999 := by exact_mod_cast Nat.lt_succ_iff.mp hk
      rw [vAt]
      norm_num [g, dt]
      linarith
    · rw [vAt]; norm_num [g, dt]
  have hs : sAt 1 (-1) (5/49) 1000 = 999/2000 := by
    rw [sAt_closed]; norm_num [g, dt]
  exact ⟨1000, by rw [h, hs]⟩

/-! ## Claims -/

/-- C1: on the 8-sample dataset with 50 samples per time unit and `g = 9.8`,
the kinematic least-squares fit produces `s₀` within `1e-4` of `0.61802`,
`u` within `1e-4` of `-0.34818`, `α` within `1e-4` of `0.01063`, and the
derived resting position `s₀ − u²/(2·α·g)` is within `1e-3` of `0.03610`
and is positive: the ball does not reach the pocket. -/
theorem fit_concrete_dataset :
    ∃ s0 u alpha : ℚ, lstsqFit g frame_period ballData = .ok (s0, u, alpha)
      ∧ |s0 - 0.61802| < 1/10000
      ∧ |u - (-0.34818)| < 1/10000
      ∧ |alpha - 0.01063| < 1/10000
      ∧ |restingClosedForm g s0 u alpha - 0.03610| < 1/1000
      ∧ 0 < restingClosedForm g s0 u alpha := by
  refine ⟨5933/9600, -11699/33600, 25/2352, ?_, ?_, ?_, ?_, ?_, ?_⟩
  · rw [lstsqFit]
    norm_num [ballData, sumIdx, det3, designCol, gramEntry, momEntry, List.getD, g, frame_period]
  all_goals norm_num [restingClosedForm, g, abs_lt]

/-- C2: for every `N ≥ 3`, parameters `(s₀, u, α)`, non-zero gravitational
constant and non-zero sampling period, fitting the `N` noiseless observations
generated exactly from `s(t) = s₀ + u·t + ½·α·g·t²` at `t_n = n·period`
recovers exactly the triple `(s₀, u, α)`. -/
theorem fit_recovers_exact_model (gc p s0 u alpha : ℚ) (N : ℕ)
    (hN : 3 ≤ N) (hg : gc ≠ 0) (hp : p ≠ 0) :
    lstsqFit gc p (modelData gc p s0 u alpha N) = .ok (s0, u, alpha) :=
  lstsqFit_modelData gc p s0 u alpha N hN hg hp

theorem fit_recovers_exact_model_witness :
    (3:ℕ) ≤ 3 ∧ (49/5 : ℚ) ≠ 0 ∧ (1/50 : ℚ) ≠ 0 ∧
      lstsqFit (49/5) (1/50) (modelData (49/5) (1/50) 1 (-2) 3 3) = .ok (1, -2, 3) :=
  ⟨le_rfl, by norm_num, by norm_num,
    fit_recovers_exact_model (49/5) (1/50) 1 (-2) 3 3 le_rfl (by norm_num) (by norm_num)⟩

/-- C3: for `v < 0` and `alpha > 0`, the resting position computed by the
forward Euler simulator is within `dt·|v|` (constant of proportionality 1)
of the closed form `s₀ − u²/(2·α·g)`. -/
theorem euler_matches_closed_form (s v alpha r : ℚ) (hv : v < 0) (ha : 0 < alpha)
    (hr : RestingPosition s v alpha r) :
    |r - restingClosedForm g s v alpha| ≤ dt * |v| :=
  resting_error_bound s v alpha r hv ha hr

theorem euler_matches_closed_form_witness :
    (-1 : ℚ) < 0 ∧ (0 : ℚ) < 5/49 ∧ RestingPosition 1 (-1) (5/49) (999/2000) ∧
      |(999/2000 : ℚ) - restingClosedForm g 1 (-1) (5/49)| ≤ dt * |(-1 : ℚ)| :=
  ⟨by norm_num, by norm_num, restingPos_unit_example,
    euler_matches_closed_form 1 (-1) (5/49) (999/2000) (by norm_num) (by norm_num)
      restingPos_unit_example⟩

/-- C4: the simulator's loop result is characterized exactly: it updates the
position by the pre-update velocity times `dt = 0.001` and the velocity by
`alpha·g·dt` with `g = 9.8`, iterates exactly while `v < 0`, and returns the
position held at the first iteration index whose velocity is non-negative. -/
theorem simulator_loop_characterization :
    dt = 0.001 ∧ g = 9.8 ∧
      (∀ s v : ℚ, stepS s v = s + v * dt) ∧
      (∀ alpha v : ℚ, stepV alpha v = v + alpha * g * dt) ∧
      ∀ s v alpha r : ℚ,
        (RestingPosition s v alpha r ↔
          ∃ n : ℕ, (∀ k < n, vAt v alpha k < 0) ∧ 0 ≤ vAt v alpha n
            ∧ r = sAt s v alpha n) := by
  refine ⟨by norm_num [dt], by norm_num [g], fun _ _ => rfl, fun _ _ => rfl, fun s v alpha r => ⟨?_, ?_⟩⟩
  · rintro ⟨fuel, h⟩
    exact exists_first_nonneg_of_restingLoop alpha fuel s v r h
  · rintro ⟨n, hneg, h0, hr⟩
    exact ⟨n, by rw [restingLoop_eq_of_first_nonneg alpha n n s v hneg h0 le_rfl, hr]⟩

theorem simulator_loop_characterization_witness : RestingPosition 2 0 7 2 :=
  (simulator_loop_characterization.2.2.2.2 2 0 7 2).mpr
    ⟨0, fun k hk => absurd hk (Nat.not_lt_zero k), by norm_num [vAt], by simp [sAt]⟩

/-- C5: if the initial velocity is non-negative, the simulator returns the
initial position immediately — with zero fuel, and with any fuel. -/
theorem nonneg_velocity_returns_immediately (s v alpha : ℚ) (hv : 0 ≤ v) :
    restingLoop alpha 0 s v = some s
      ∧ (∀ fuel, restingLoop alpha fuel s v = some s)
      ∧ RestingPosition s v alpha s := by
  have h : ∀ fuel, restingLoop alpha fuel s v = some s := by
    intro fuel
    cases fuel with
    | zero => rw [restingLoop, if_neg (not_lt.mpr hv)]
    | succ f => rw [restingLoop, if_neg (not_lt.mpr hv)]
  exact ⟨h 0, h, 0, h 0⟩

theorem nonneg_velocity_returns_immediately_witness :
    (0 : ℚ) ≤ 0 ∧ restingLoop (-1) 0 2 0 = some 2 :=
  ⟨le_rfl, (nonneg_velocity_returns_immediately 2 0 (-1) le_rfl).1⟩

/-- C6: with `v < 0` and `alpha > 0` the loop terminates after finitely many
steps; with `v < 0` and `alpha ≤ 0` no amount of fuel makes it finish — and
the spec-mandated reimplementation rejects that case with `InvalidParameter`
instead of looping forever. -/
theorem loop_termination_dichotomy :
    (∀ s v alpha : ℚ, v < 0 → 0 < alpha → ∃ r, RestingPosition s v alpha r)
    ∧ (∀ s v alpha : ℚ, v < 0 → alpha ≤ 0 → ∀ fuel, restingLoop alpha fuel s v = none)
    ∧ (∀ s v alpha : ℚ, v < 0 → alpha ≤ 0 →
        restingPositionChecked s v alpha = .error .invalidParameter) := by
  refine ⟨fun s v alpha _ ha => ⟨_, restingPosition_pos_alpha s v alpha ha⟩,
    fun s v alpha hv ha fuel => restingLoop_none_of_nonpos alpha ha fuel s v hv,
    fun s v alpha hv ha => ?_⟩
  rw [restingPositionChecked, dif_neg (not_lt.mpr ha), if_pos hv]

theorem loop_termination_dichotomy_witness :
    ((-1 : ℚ) < 0 ∧ (0 : ℚ) < 1 ∧ ∃ r, RestingPosition 0 (-1) 1 r)
    ∧ ((-1 : ℚ) < 0 ∧ (0 : ℚ) ≤ 0 ∧ restingLoop 0 2 0 (-1) = none)
    ∧ restingPositionChecked 0 (-1) 0 = .error .invalidParameter :=
  ⟨⟨by norm_num, by norm_num, loop_termination_dichotomy.1 0 (-1) 1 (by norm_num) (by norm_num)⟩,
    ⟨by norm_num, le_rfl, loop_termination_dichotomy.2.1 0 (-1) 0 (by norm_num) le_rfl 2⟩,
    loop_termination_dichotomy.2.2 0 (-1) 0 (by norm_num) le_rfl⟩

/-- C7: with `alpha = 0` the velocity update is the identity — the velocity
after each loop iteration equals the velocity before it, for every initial
velocity, and hence after any number of iterations. -/
theorem zero_friction_velocity_constant :
    ∀ v : ℚ, stepV 0 v = v ∧ ∀ n : ℕ, vAt v 0 n = v := by
  intro v
  constructor
  · rw [stepV]; ring
  · intro n; rw [vAt]; ring

/-- C8: the kinematic fit rejects fewer than 3 observations with
`insufficientData` before solving, and proceeds to a solution for every list
of at least 3 observations. -/
theorem fit_insufficient_data_guard :
    (∀ gc p : ℚ, ∀ ds : List ℚ, ds.length < 3 →
        lstsqFit gc p ds = .error .insufficientData)
    ∧ (∀ gc p : ℚ, ∀ ds : List ℚ, 3 ≤ ds.length →
        ∃ t : ℚ × ℚ × ℚ, lstsqFit gc p ds = .ok t) := by
  constructor
  · intro gc p ds h
    rw [lstsqFit, if_pos h]
  · intro gc p ds h
    rw [lstsqFit, if_neg (by omega)]
    exact ⟨_, rfl⟩

theorem fit_insufficient_data_guard_witness :
    ([(1:ℚ), 2].length < 3 ∧ lstsqFit 1 1 [(1:ℚ), 2] = .error .insufficientData)
    ∧ (3 ≤ [(1:ℚ), 2, 3].length ∧ ∃ t : ℚ × ℚ × ℚ, lstsqFit 1 1 [(1:ℚ), 2, 3] = .ok t) :=
  ⟨⟨by norm_num, fit_insufficient_data_guard.1 1 1 [1, 2] (by norm_num)⟩,
    ⟨by norm_num, fit_insufficient_data_guard.2 1 1 [1, 2, 3] (by norm_num)⟩⟩

/-- C9: the crude two-point estimate (`s₀ = 0.618`, `u = -0.345`,
`α = 5/588 ≈ 0.0085`) fed into the forward simulator yields resting position
exactly `-0.0963225` — negative, within `1e-4` of `-0.0963`, and opposite in
sign to the least-squares fit's resting position. -/
theorem crude_estimate_sign_disagreement :
    RestingPosition crudeS crudeV0 crudeAlpha (-38529/400000)
    ∧ (-38529/400000 : ℚ) < 0
    ∧ |(-38529/400000 : ℚ) - (-0.0963)| < 1/10000
    ∧ ∃ s0 u alpha : ℚ, lstsqFit g frame_period ballData = .ok (s0, u, alpha)
        ∧ 0 < restingClosedForm g s0 u alpha := by
  have hS : crudeS = 309/500 := by norm_num [crudeS, ballData, List.getD]
  have hV : crudeV0 = -69/200 := by norm_num [crudeV0, ballData, frame_period, List.getD]
  have hA : crudeAlpha = 5/588 := by
    norm_num [crudeAlpha, crudeV0, crudeV1, ballData, frame_period, g, List.getD]
  refine ⟨?_, by norm_num, by norm_num [abs_lt], 5933/9600, -11699/33600, 25/2352, ?_, ?_⟩
  · rw [hS, hV, hA]
    have h : restingLoop (5/588) 4140 (309/500) (-69/200)
        = some (sAt (309/500) (-69/200) (5/588) 4140) := by
      apply restingLoop_eq_of_first_nonneg (5/588) 4140 4140 (309/500) (-69/200) ?_ ?_ le_rfl
      · intro k hk
        have hk' : (k : ℚ) ≤ 4139 := by exact_mod_cast Nat.lt_succ_iff.mp hk
        rw [vAt]
        norm_num [g, dt]
        linarith
      · rw [vAt]; norm_num [g, dt]
    have hs : sAt (309/500) (-69/200) (5/588) 4140 = -38529/400000 := by
      rw [sAt_closed]; norm_num [g, dt]
    exact ⟨4140, by rw [h, hs]⟩
  · rw [lstsqFit]
    norm_num [ballData, sumIdx, det3, designCol, gramEntry, momEntry, List.getD, g, frame_period]
  · norm_num [restingClosedForm, g]

/-- C10: from a negative initial velocity with positive friction, the
simulated resting position is strictly below the initial position — the ball
only moves toward the target. -/
theorem resting_position_strictly_decreases (s v alpha r : ℚ)
    (hv : v < 0) (_ha : 0 < alpha) (hr : RestingPosition s v alpha r) : r < s :=
  resting_lt_start s v alpha r hv hr

theorem resting_position_strictly_decreases_witness :
    (-1 : ℚ) < 0 ∧ (0 : ℚ) < 5/49 ∧ (999/2000 : ℚ) < 1 :=
  ⟨by norm_num, by norm_num,
    resting_position_strictly_decreases 1 (-1) (5/49) (999/2000) (by norm_num) (by norm_num)
      restingPos_unit_example⟩

end RollingBall
